import Mathlib

/-!
Verification of the yash-rs front end (lexer, here-document fill stage,
source provenance, standard-input line reader) against its natural-language
specification.

The embedding is a shallow one:

* The lexer (`src/yash-syntax/src/parser/lex.rs`) is modelled as pure
  functions over a fixed character buffer `s : List Char` and a cursor
  position `pos : Nat`.  The Rust `Lexer` lazily pulls input lines into a
  growing `Code` buffer; the spec states that the token stream is invariant
  under chunking, so the model reads from the fully materialised buffer.
  `Location` values are modelled by the character index (the Rust tests
  observe locations through `column.get() = index + 1`).
* The Rust lexer methods return `Result` and are `async` only because the
  underlying `Input` may fail or suspend; the pure model's failure monad
  `Except Error` carries the syntax errors.  The mutually recursive parsing
  functions are indexed by a fuel argument; running out of fuel yields the
  distinguished `ErrorCause.outOfFuel`, which no theorem below depends on.
  The `unreachable!()` macro in `Lexer::arithmetic_expansion` is modelled by
  the distinguished `ErrorCause.unreachable`.
* Lexer primitives (`peek_char`, `consume_char_if`, `skip_if`,
  `line_continuations`, `index`/`rewind`) live in `parser/lex/core.rs` and
  `parser/lex/misc.rs`, which are not part of the given sources; they are
  modelled from the spec (section 4.2 Lookahead / Line continuations) and
  from the unit tests in `lex.rs` that pin their behaviour.
* Strings are modelled as `List Char`; `String` contents in the Rust AST
  (single-quote bodies, command-substitution bodies, tilde names) become
  `List Char` as well so that everything is decidable and executable.
-/

/-- SourceChar (source.rs): a character paired with its location.  The
location is modelled by the character index into the buffer. -/
structure SourceChar where
  value : Char
  location : Nat
deriving DecidableEq, Repr

/-- ErrorCause (parser/core.rs, as used by lex.rs): the syntax-error causes
produced by the lexer, each carrying the opening location of the unclosed
construct.  `unreachable` models the `unreachable!()` panic arm and
`outOfFuel` is the artifact of the fuel-indexed embedding. -/
inductive ErrorCause where
  | unclosedCommandSubstitution (openingLocation : Nat)
  | unclosedArith (openingLocation : Nat)
  | unclosedBackquote (openingLocation : Nat)
  | unclosedSingleQuote (openingLocation : Nat)
  | unclosedDoubleQuote (openingLocation : Nat)
  | unclosedParen (openingLocation : Nat)
  | unreachable
  | outOfFuel
deriving DecidableEq, Repr

/-- Error (parser/core.rs): a cause plus the location where the lexer
noticed the problem. -/
structure Error where
  cause : ErrorCause
  location : Nat
deriving DecidableEq, Repr

/-- BackquoteUnit (syntax.rs): a unit of a backquoted command substitution. -/
inductive BackquoteUnit where
  | literal (c : Char)
  | backslashed (c : Char)
deriving DecidableEq, Repr

/-- TextUnit (syntax.rs): a unit of a `Text`.  `Text` itself is the Rust
tuple struct `Text(Vec<TextUnit>)`, modelled as a plain list. -/
inductive TextUnit where
  | literal (c : Char)
  | backslashed (c : Char)
  | commandSubst (content : List Char) (location : Nat)
  | arith (content : List TextUnit) (location : Nat)
  | backquote (content : List BackquoteUnit) (location : Nat)

/-- Text (syntax.rs): `struct Text(pub Vec<TextUnit>)`. -/
abbrev Text := List TextUnit

/-- WordUnit (syntax.rs): a unit of a `Word`. -/
inductive WordUnit where
  | unquoted (u : TextUnit)
  | singleQuote (content : List Char)
  | doubleQuote (content : Text)
  | tilde (name : List Char)

/-- Word (syntax.rs): an ordered sequence of word units plus the location
of the first character. -/
structure Word where
  units : List WordUnit
  location : Nat

/-- TokenId (lex.rs): classification of a token.  Keywords and operators
are represented by their spelling. -/
inductive TokenId where
  | endOfInput
  | ioNumber
  | token (keyword : Option (List Char))
  | operator (op : List Char)
deriving DecidableEq, Repr

/-- Token (lex.rs): a word, its token id, and the index of its first
character. -/
structure Token where
  word : Word
  id : TokenId
  index : Nat

/-- Modelled from the spec: `peek_char` (lex/core.rs is not under src/)
returns the next character without consuming it. -/
def peek_char (s : List Char) (pos : Nat) : Option Char :=
  s[pos]?

/-- Modelled from the spec: `consume_char_if` (lex/core.rs is not under
src/) consumes the next character exactly when the predicate accepts it,
returning the consumed character with its location. -/
def consume_char_if (p : Char → Bool) (s : List Char) (pos : Nat) :
    Option SourceChar × Nat :=
  match s[pos]? with
  | some c => if p c then (some ⟨c, pos⟩, pos + 1) else (none, pos)
  | none => (none, pos)

/-- Modelled from the spec: `skip_if` (lex/core.rs is not under src/) is
`consume_char_if` reduced to a success flag. -/
def skip_if (p : Char → Bool) (s : List Char) (pos : Nat) : Bool × Nat :=
  match consume_char_if p s pos with
  | (some _, pos) => (true, pos)
  | (none, pos) => (false, pos)

/-- Modelled from the spec: the recursion core of `line_continuations`,
structurally recursive on a countdown that the wrapper instantiates with
the buffer length (each consumed pair advances the cursor by two, so the
countdown never runs out on positions inside the buffer). -/
def line_continuations_aux : Nat → List Char → Nat → Nat
  | 0, _, pos => pos
  | n + 1, s, pos =>
    if s[pos]? = some '\\' ∧ s[pos + 1]? = some '\n' then
      line_continuations_aux n s (pos + 2)
    else
      pos

/-- Modelled from the spec: `line_continuations` (lex/misc.rs is not under
src/) consumes every backslash-newline pair at the cursor; such a pair is
invisible to callers that go through this helper. -/
def line_continuations (s : List Char) (pos : Nat) : Nat :=
  line_continuations_aux s.length s pos

/-- Modelled from the spec: `is_blank` (syntax.rs is not under src/); a
blank is a space or a tab. -/
def is_blank (c : Char) : Bool :=
  c = ' ' ∨ c = '\t'

/-- Modelled from the spec: `is_operator_char` (lex/op.rs is not under
src/); the POSIX operator characters. -/
def is_operator_char (c : Char) : Bool :=
  c = '\n' ∨ c = ';' ∨ c = '&' ∨ c = '|' ∨ c = '(' ∨ c = ')' ∨ c = '<' ∨ c = '>'

/-- Function `is_token_delimiter_char` (lex.rs): a token delimiter is an
operator character or a blank. -/
def is_token_delimiter_char (c : Char) : Bool :=
  is_operator_char c || is_blank c

/-- Method `Lexer::backquote_unit` (lex.rs): parses one backquote unit,
possibly preceded by line continuations.  A backslash escapes `$`,
backquote, backslash, and - exactly when `double_quote_escapable` holds -
the double quote; otherwise the backslash is a literal.  Any character
other than a backquote is a literal. -/
def backquote_unit (double_quote_escapable : Bool) (s : List Char)
    (pos : Nat) : Option BackquoteUnit × Nat :=
  let pos := line_continuations s pos
  match skip_if (fun c => c = '\\') s pos with
  | (true, pos) =>
    let is_escapable := fun c =>
      (c = '$' || c = '`' || c = '\\') || (c = '"' && double_quote_escapable)
    match consume_char_if is_escapable s pos with
    | (some c, pos) => (some (.backslashed c.value), pos)
    | (none, pos) => (some (.literal '\\'), pos)
  | (false, pos) =>
    match consume_char_if (fun c => c ≠ '`') s pos with
    | (some c, pos) => (some (.literal c.value), pos)
    | (none, pos) => (none, pos)

/-- Loop of `Lexer::backquote` (lex.rs): `while let Some(unit) =
self.backquote_unit(..)` collecting the content units. -/
def backquote_loop (fuel : Nat) (double_quote_escapable : Bool)
    (s : List Char) (pos : Nat) (acc : List BackquoteUnit) :
    Except Error (List BackquoteUnit × Nat) :=
  match fuel with
  | 0 => .error ⟨.outOfFuel, pos⟩
  | fuel + 1 =>
    match backquote_unit double_quote_escapable s pos with
    | (some u, pos) => backquote_loop fuel double_quote_escapable s pos (acc ++ [u])
    | (none, pos) => .ok (acc, pos)

/-- Method `Lexer::backquote` (lex.rs): parses a backquoted command
substitution.  If the next character is not a backquote, consumes nothing
and returns none; an unterminated construct is `UnclosedBackquote` with the
opening backquote's location. -/
def backquote (fuel : Nat) (double_quote_escapable : Bool) (s : List Char)
    (pos : Nat) : Except Error (Option TextUnit × Nat) :=
  match consume_char_if (fun c => c = '`') s pos with
  | (none, _) => .ok (none, pos)
  | (some sc, pos) =>
    let location := sc.location
    match backquote_loop fuel double_quote_escapable s pos [] with
    | .error e => .error e
    | .ok (content, pos) =>
      match skip_if (fun c => c = '`') s pos with
      | (true, pos) => .ok (some (.backquote content location), pos)
      | (false, pos) => .error ⟨.unclosedBackquote location, pos⟩

/-- Method `Lexer::single_quote` (lex.rs): parses a single-quoted string
after the opening quote has been consumed; every character is literal up to
the closing quote, and end of input yields `UnclosedSingleQuote`. -/
def single_quote (fuel : Nat) (opening_location : Nat) (s : List Char)
    (pos : Nat) (content : List Char) : Except Error (WordUnit × Nat) :=
  match fuel with
  | 0 => .error ⟨.outOfFuel, pos⟩
  | fuel + 1 =>
    match consume_char_if (fun _ => true) s pos with
    | (some sc, pos) =>
      if sc.value = '\'' then .ok (.singleQuote content, pos)
      else single_quote fuel opening_location s pos (content ++ [sc.value])
    | (none, pos) => .error ⟨.unclosedSingleQuote opening_location, pos⟩

/-- Modelled from the spec: the command-substitution body is parsed as a
nested program up to the matching `)` (the nested-program parser invoked by
`Lexer::command_substitution` via `inner_program_boxed` is not under src/);
modelled as a scan that keeps every character and stops at the `)` that
closes the substitution, honouring nested parentheses. -/
def inner_program_scan (depth : Nat) : List Char → List Char
  | [] => []
  | c :: rest =>
    if c = ')' then
      match depth with
      | 0 => []
      | d + 1 => c :: inner_program_scan d rest
    else if c = '(' then c :: inner_program_scan (depth + 1) rest
    else c :: inner_program_scan depth rest

/-- Modelled from the spec: wrapper giving the nested-program scan the
cursor interface used by `Lexer::command_substitution`. -/
def inner_program (s : List Char) (pos : Nat) : List Char × Nat :=
  let content := inner_program_scan 0 (s.drop pos)
  (content, pos + content.length)

/-- Helper closure `is_delimiter_or_paren` of
`Lexer::text_with_parentheses` (lex.rs): `(` is always a delimiter; while
the stack of open-parenthesis locations is non-empty the caller-supplied
delimiter predicate is ignored and only `)` delimits; with an empty stack
the caller-supplied predicate decides. -/
def is_delimiter_or_paren (is_delimiter : Char → Bool)
    (open_paren_locations : List Nat) (c : Char) : Bool :=
  if c = '(' then true
  else if open_paren_locations.isEmpty then is_delimiter c
  else c = ')'

mutual

/-- Method `Lexer::text_unit` (lex.rs): parses a literal character,
backslash-escaped character, dollar unit, or backquote, optionally preceded
by line continuations.  A backslash whose follower is not escapable is a
literal backslash.  The backquote treatment of the double quote depends on
`is_escapable '_'`. -/
def text_unit (fuel : Nat) (is_delimiter : Char → Bool)
    (is_escapable : Char → Bool) (s : List Char) (pos : Nat) :
    Except Error (Option TextUnit × Nat) :=
  match fuel with
  | 0 => .error ⟨.outOfFuel, pos⟩
  | fuel + 1 =>
    let pos := line_continuations s pos
    match skip_if (fun c => c = '\\') s pos with
    | (true, pos) =>
      match consume_char_if is_escapable s pos with
      | (some c, pos) => .ok (some (.backslashed c.value), pos)
      | (none, pos) => .ok (some (.literal '\\'), pos)
    | (false, pos) =>
      match dollar_unit fuel s pos with
      | .error e => .error e
      | .ok (some u, pos) => .ok (some u, pos)
      | .ok (none, pos) =>
        match backquote fuel (!is_escapable '_') s pos with
        | .error e => .error e
        | .ok (some u, pos) => .ok (some u, pos)
        | .ok (none, pos) =>
          match consume_char_if (fun c => !is_delimiter c) s pos with
          | (some sc, pos) => .ok (some (.literal sc.value), pos)
          | (none, pos) => .ok (none, pos)
termination_by structural fuel

/-- Loop of `Lexer::text` (lex.rs): `while let Some(unit) =
self.text_unit(..)` collecting the units of a `Text`. -/
def text_loop (fuel : Nat) (is_delimiter : Char → Bool)
    (is_escapable : Char → Bool) (s : List Char) (pos : Nat)
    (units : List TextUnit) : Except Error (Text × Nat) :=
  match fuel with
  | 0 => .error ⟨.outOfFuel, pos⟩
  | fuel + 1 =>
    match text_unit fuel is_delimiter is_escapable s pos with
    | .error e => .error e
    | .ok (none, pos) => .ok (units, pos)
    | .ok (some u, pos) => text_loop fuel is_delimiter is_escapable s pos (units ++ [u])
termination_by structural fuel

/-- Loop of `Lexer::text_with_parentheses` (lex.rs): parses text segments
with the `is_delimiter_or_paren` predicate, pushing the location of each
unquoted `(` on a stack and popping it at the matching `)`; end of input
with a non-empty stack reports `UnclosedParen` at the popped top. -/
def text_with_parentheses_loop (fuel : Nat) (is_delimiter : Char → Bool)
    (is_escapable : Char → Bool) (s : List Char) (pos : Nat)
    (units : List TextUnit) (open_paren_locations : List Nat) :
    Except Error (Text × Nat) :=
  match fuel with
  | 0 => .error ⟨.outOfFuel, pos⟩
  | fuel + 1 =>
    match text_loop fuel (is_delimiter_or_paren is_delimiter open_paren_locations)
        is_escapable s pos [] with
    | .error e => .error e
    | .ok (next_units, pos) =>
      let units := units ++ next_units
      match consume_char_if (fun c => c = '(') s pos with
      | (some sc, pos) =>
        text_with_parentheses_loop fuel is_delimiter is_escapable s pos
          (units ++ [.literal '(']) (sc.location :: open_paren_locations)
      | (none, pos) =>
        match open_paren_locations with
        | opening_location :: rest =>
          match skip_if (fun c => c = ')') s pos with
          | (true, pos) =>
            text_with_parentheses_loop fuel is_delimiter is_escapable s pos
              (units ++ [.literal ')']) rest
          | (false, pos) => .error ⟨.unclosedParen opening_location, pos⟩
        | [] => .ok (units, pos)
termination_by structural fuel

/-- Method `Lexer::dollar_unit` (lex.rs): consumes a `$` and tries the
arithmetic expansion first, then the command substitution; if neither
matches, rewinds to the saved index and returns none. -/
def dollar_unit (fuel : Nat) (s : List Char) (pos : Nat) :
    Except Error (Option TextUnit × Nat) :=
  match fuel with
  | 0 => .error ⟨.outOfFuel, pos⟩
  | fuel + 1 =>
    let index := pos
    match consume_char_if (fun c => c = '$') s pos with
    | (none, _) => .ok (none, pos)
    | (some sc, pos) =>
      let location := sc.location
      match arithmetic_expansion fuel location s pos with
      | .error e => .error e
      | .ok (.inl u, pos) => .ok (some u, pos)
      | .ok (.inr location, pos) =>
        match command_substitution fuel location s pos with
        | .error e => .error e
        | .ok (some u, pos) => .ok (some u, pos)
        | .ok (none, _) => .ok (none, index)
termination_by structural fuel

/-- Method `Lexer::arithmetic_expansion` (lex.rs): parses `((`, the body
via `text_with_parentheses` with `)` as delimiter and the dollar-backquote-
backslash escapable set, then `))`.  A missing second `(`, or a character
other than `)` where the second closing parenthesis is expected, rewinds to
the saved index and returns the unmatched marker (`Sum.inr` with the
location of the `$`); end of input at either closing parenthesis is
`UnclosedArith`.  The first closing-parenthesis match's arm for a character
other than `)` is `unreachable!()` in the source. -/
def arithmetic_expansion (fuel : Nat) (location : Nat) (s : List Char)
    (pos : Nat) : Except Error ((TextUnit ⊕ Nat) × Nat) :=
  match fuel with
  | 0 => .error ⟨.outOfFuel, pos⟩
  | fuel + 1 =>
    let index := pos
    match skip_if (fun c => c = '(') s pos with
    | (false, pos) => .ok (.inr location, pos)
    | (true, pos) =>
      let pos := line_continuations s pos
      match skip_if (fun c => c = '(') s pos with
      | (false, _) => .ok (.inr location, index)
      | (true, pos) =>
        match text_with_parentheses_loop fuel (fun c => c = ')')
            (fun c => c = '$' || c = '`' || c = '\\') s pos [] [] with
        | .error e => .error e
        | .ok (content, pos) =>
          match peek_char s pos with
          | some c =>
            if c = ')' then
              let pos := pos + 1
              let pos := line_continuations s pos
              match peek_char s pos with
              | some c2 =>
                if c2 = ')' then .ok (.inl (.arith content location), pos + 1)
                else .ok (.inr location, index)
              | none => .error ⟨.unclosedArith location, pos⟩
            else .error ⟨.unreachable, pos⟩
          | none => .error ⟨.unclosedArith location, pos⟩
termination_by structural fuel

/-- Method `Lexer::command_substitution` (lex.rs): if the next character is
`(`, parses the body as a nested program up to the matching `)`; a missing
closing parenthesis is `UnclosedCommandSubstitution`; otherwise consumes
nothing and returns none. -/
def command_substitution (fuel : Nat) (opening_location : Nat)
    (s : List Char) (pos : Nat) : Except Error (Option TextUnit × Nat) :=
  match fuel with
  | 0 => .error ⟨.outOfFuel, pos⟩
  | _ + 1 =>
    match skip_if (fun c => c = '(') s pos with
    | (false, pos) => .ok (none, pos)
    | (true, pos) =>
      match inner_program s pos with
      | (content, pos) =>
        match skip_if (fun c => c = ')') s pos with
        | (true, pos) => .ok (some (.commandSubst content opening_location), pos)
        | (false, pos) => .error ⟨.unclosedCommandSubstitution opening_location, pos⟩

end

/-- Method `Lexer::text_with_parentheses` (lex.rs): entry point of the
loop with empty accumulated units and an empty parenthesis stack. -/
def text_with_parentheses (fuel : Nat) (is_delimiter : Char → Bool)
    (is_escapable : Char → Bool) (s : List Char) (pos : Nat) :
    Except Error (Text × Nat) :=
  text_with_parentheses_loop fuel is_delimiter is_escapable s pos [] []

/-- Named double-quote escapable set of `Lexer::double_quote` (lex.rs):
`fn is_escapable(c: char) -> bool` accepting dollar, backquote, double
quote, and backslash. -/
def double_quote_is_escapable (c : Char) : Bool :=
  c = '$' || c = '`' || c = '"' || c = '\\'

/-- Method `Lexer::double_quote` (lex.rs): parses a double-quoted string
after the opening quote has been consumed, collecting a `Text` with `"` as
delimiter and the double-quote escapable set; a missing closing quote is
`UnclosedDoubleQuote`. -/
def double_quote (fuel : Nat) (opening_location : Nat) (s : List Char)
    (pos : Nat) : Except Error (WordUnit × Nat) :=
  match text_loop fuel (fun c => c = '"') double_quote_is_escapable s pos [] with
  | .error e => .error e
  | .ok (content, pos) =>
    match skip_if (fun c => c = '"') s pos with
    | (true, pos) => .ok (.doubleQuote content, pos)
    | (false, pos) => .error ⟨.unclosedDoubleQuote opening_location, pos⟩

/-- Method `Lexer::word_unit` (lex.rs): first tests whether the next
character is a single or double quote (the source carries a TODO noting
that line continuations are not parsed before this test) and otherwise
parses a `text_unit` with every character escapable. -/
def word_unit (fuel : Nat) (is_delimiter : Char → Bool) (s : List Char)
    (pos : Nat) : Except Error (Option WordUnit × Nat) :=
  match consume_char_if (fun c => c = '\'' || c = '"') s pos with
  | (none, pos) =>
    match text_unit fuel is_delimiter (fun _ => true) s pos with
    | .error e => .error e
    | .ok (u, pos) => .ok (u.map .unquoted, pos)
  | (some sc, pos) =>
    let location := sc.location
    if sc.value = '\'' then
      match single_quote fuel location s pos [] with
      | .error e => .error e
      | .ok (u, pos) => .ok (some u, pos)
    else if sc.value = '"' then
      match double_quote fuel location s pos with
      | .error e => .error e
      | .ok (u, pos) => .ok (some u, pos)
    else .error ⟨.unreachable, pos⟩

/-- Loop of `Lexer::word` (lex.rs): `while let Some(unit) =
self.word_unit(..)` collecting the units of a word. -/
def word_loop (fuel : Nat) (is_delimiter : Char → Bool) (s : List Char)
    (pos : Nat) (units : List WordUnit) :
    Except Error (List WordUnit × Nat) :=
  match fuel with
  | 0 => .error ⟨.outOfFuel, pos⟩
  | fuel + 1 =>
    match word_unit fuel is_delimiter s pos with
    | .error e => .error e
    | .ok (none, pos) => .ok (units, pos)
    | .ok (some u, pos) => word_loop fuel is_delimiter s pos (units ++ [u])

/-- Method `Lexer::word` (lex.rs): records the location of the first
character and collects word units until an unquoted delimiter. -/
def word (fuel : Nat) (is_delimiter : Char → Bool) (s : List Char)
    (pos : Nat) : Except Error (Word × Nat) :=
  let location := pos
  match word_loop fuel is_delimiter s pos [] with
  | .error e => .error e
  | .ok (units, pos) => .ok (⟨units, location⟩, pos)

/-- Modelled from the spec: the scan of `Word::parse_tilde_front`
(lex/tilde.rs is not under src/) over the units following a leading `~`:
literal characters are collected into the tilde name until the first `/`
or `:` or the end of the word; a non-literal unit stops the conversion. -/
def tilde_name_scan : List WordUnit → Option (List Char × List WordUnit)
  | [] => some ([], [])
  | u :: rest =>
    match u with
    | .unquoted (.literal c) =>
      if c = '/' ∨ c = ':' then some ([], u :: rest)
      else
        match tilde_name_scan rest with
        | some (name, rest) => some (c :: name, rest)
        | none => none
    | _ => none

/-- Modelled from the spec: `Word::parse_tilde_front` (lex/tilde.rs is not
under src/) recognises a word-initial unquoted `~` followed by zero or more
literal characters up to the first `/`, `:` or the end of the word,
converting that prefix into a `Tilde` unit. -/
def parse_tilde_front (w : Word) : Word :=
  match w.units with
  | .unquoted (.literal '~') :: rest =>
    match tilde_name_scan rest with
    | some (name, rest) => ⟨.tilde name :: rest, w.location⟩
    | none => w
  | _ => w

/-- Method `Word::to_string_if_literal` (syntax.rs is not under src/;
modelled from the spec): the word's spelling when every unit is an
unquoted literal character, none otherwise. -/
def to_string_if_literal (units : List WordUnit) : Option (List Char) :=
  match units with
  | [] => some []
  | .unquoted (.literal c) :: rest =>
    match to_string_if_literal rest with
    | some cs => some (c :: cs)
    | none => none
  | _ => none

/-- Modelled from the spec: the POSIX reserved words recognised by
`Keyword::try_from` (lex/keyword.rs is not under src/). -/
def keywords : List (List Char) :=
  [['!'], [Char.ofNat 123], [Char.ofNat 125],
   ['c', 'a', 's', 'e'], ['d', 'o'], ['d', 'o', 'n', 'e'],
   ['e', 'l', 'i', 'f'], ['e', 'l', 's', 'e'], ['e', 's', 'a', 'c'],
   ['f', 'i'], ['f', 'o', 'r'], ['i', 'f'], ['i', 'n'],
   ['t', 'h', 'e', 'n'], ['u', 'n', 't', 'i', 'l'],
   ['w', 'h', 'i', 'l', 'e']]

/-- Modelled from the spec: `Keyword::try_from` (lex/keyword.rs is not
under src/), by exact spelling. -/
def keyword_of (lit : List Char) : Option (List Char) :=
  if lit ∈ keywords then some lit else none

/-- Method `Lexer::token_id` (lex.rs): an empty word is `EndOfInput`; a
literal word that spells a reserved word is a keyword token; a literal word
of ASCII digits whose immediately following unconsumed character is `<` or
`>` is `IoNumber`; everything else is `Token(None)`. -/
def token_id (s : List Char) (pos : Nat) (w : Word) : TokenId :=
  if w.units.isEmpty then .endOfInput
  else
    match to_string_if_literal w.units with
    | some literal =>
      match keyword_of literal with
      | some kw => .token (some kw)
      | none =>
        if literal.all (fun c => c.isDigit) then
          match peek_char s pos with
          | some next =>
            if next = '<' ∨ next = '>' then .ioNumber else .token none
          | none => .token none
        else .token none
    | none => .token none

/-- Modelled from the spec: the operator table (lex/op.rs is not under
src/), ordered so that the first match is the longest. -/
def operator_spellings : List (List Char) :=
  [['<', '<', '-'],
   ['&', '&'], ['|', '|'], [';', ';'], ['<', '<'], ['>', '>'],
   ['<', '&'], ['>', '&'], ['<', '>'], ['>', '|'],
   ['\n'], [';'], ['&'], ['|'], ['('], [')'], ['<'], ['>']]

/-- Modelled from the spec: greedy longest-operator match at a position. -/
def match_operator_at (s : List Char) (pos : Nat) : Option (List Char) :=
  (operator_spellings.filter
    (fun op => (s.drop pos).take op.length = op)).head?

/-- Modelled from the spec: `Lexer::operator` (lex/op.rs is not under
src/): after the continuation skip, an operator character starts a greedily
matched longest operator, emitted as a token whose word spells the
operator; any other character produces no operator token. -/
def operator (s : List Char) (pos : Nat) : Option (Token × Nat) :=
  let p := line_continuations s pos
  match match_operator_at s p with
  | some op =>
    some (⟨⟨op.map (fun c => .unquoted (.literal c)), p⟩, .operator op, p⟩,
      p + op.length)
  | none => none

/-- Method `Lexer::token` (lex.rs): an operator token if one starts here;
otherwise a word token delimited by `is_token_delimiter_char`, with tilde
parsing applied to the word and `token_id` deciding the id; the token
records the index of its first character. -/
def token (fuel : Nat) (s : List Char) (pos : Nat) :
    Except Error (Token × Nat) :=
  match operator s pos with
  | some (t, pos) => .ok (t, pos)
  | none =>
    let index := pos
    match word fuel is_token_delimiter_char s pos with
    | .error e => .error e
    | .ok (w, pos) =>
      let w := parse_tilde_front w
      let id := token_id s pos w
      .ok (⟨w, id, index⟩, pos)

/-- HereDoc (syntax.rs is not under src/; modelled from the spec): a
here-document has a delimiter word, the `<<-` tab-stripping flag, and the
content word collected by the here-doc collection pass. -/
structure HereDoc where
  delimiter : Word
  remove_tabs : Bool
  content : Word

/-- MissingHereDoc (parser/fill.rs): placeholder for a here-document that
is not yet fully parsed. -/
inductive MissingHereDoc where
  | mk

/-- RedirBody (syntax.rs, as matched by parser/fill.rs): the here-document
redirection body, generic over the here-document representation. -/
inductive RedirBody (H : Type) where
  | hereDoc (h : H)

/-- Redir (syntax.rs): an optional file descriptor and a redirection
body. -/
structure Redir (H : Type) where
  fd : Option Nat
  body : RedirBody H

/-- SimpleCommand (syntax.rs): words and redirections. -/
structure SimpleCommand (H : Type) where
  words : List Word
  redirs : List (Redir H)

/-- Command (syntax.rs, as matched by parser/fill.rs): the simple-command
variant. -/
inductive Command (H : Type) where
  | simpleCommand (c : SimpleCommand H)

/-- Pipeline (syntax.rs): commands and a negation flag. -/
structure Pipeline (H : Type) where
  commands : List (Command H)
  negation : Bool

/-- Method `Fill::fill` for `RedirBody<MissingHereDoc>` (parser/fill.rs):
the placeholder takes the next value from the iterator; the Rust
`i.next().expect(..)` panic on an exhausted iterator is modelled by
`none`.  The iterator is modelled by the list of remaining values, which
each fill function threads through. -/
def RedirBody.fill : RedirBody MissingHereDoc → List HereDoc →
    Option (RedirBody HereDoc × List HereDoc)
  | .hereDoc _, [] => none
  | .hereDoc _, h :: rest => some (.hereDoc h, rest)

/-- Method `Fill::fill` for `Redir<MissingHereDoc>` (parser/fill.rs): the
file descriptor is kept and the body is filled. -/
def Redir.fill (r : Redir MissingHereDoc) (i : List HereDoc) :
    Option (Redir HereDoc × List HereDoc) :=
  match r.body.fill i with
  | none => none
  | some (body, i) => some (⟨r.fd, body⟩, i)

/-- Instance `Fill for Vec<T>` (parser/fill.rs) at `Redir`: each element is
filled in order. -/
def fill_redirs : List (Redir MissingHereDoc) → List HereDoc →
    Option (List (Redir HereDoc) × List HereDoc)
  | [], i => some ([], i)
  | r :: rs, i =>
    match r.fill i with
    | none => none
    | some (r, i) =>
      match fill_redirs rs i with
      | none => none
      | some (rs, i) => some (r :: rs, i)

/-- Method `Fill::fill` for `SimpleCommand<MissingHereDoc>`
(parser/fill.rs): the words are kept and the redirections are filled in
order. -/
def SimpleCommand.fill (c : SimpleCommand MissingHereDoc)
    (i : List HereDoc) : Option (SimpleCommand HereDoc × List HereDoc) :=
  match fill_redirs c.redirs i with
  | none => none
  | some (redirs, i) => some (⟨c.words, redirs⟩, i)

/-- Method `Fill::fill` for `Command<MissingHereDoc>` (parser/fill.rs). -/
def Command.fill : Command MissingHereDoc → List HereDoc →
    Option (Command HereDoc × List HereDoc)
  | .simpleCommand c, i =>
    match c.fill i with
    | none => none
    | some (c, i) => some (.simpleCommand c, i)

/-- Instance `Fill for Vec<T>` (parser/fill.rs) at `Command`. -/
def fill_commands : List (Command MissingHereDoc) → List HereDoc →
    Option (List (Command HereDoc) × List HereDoc)
  | [], i => some ([], i)
  | c :: cs, i =>
    match c.fill i with
    | none => none
    | some (c, i) =>
      match fill_commands cs i with
      | none => none
      | some (cs, i) => some (c :: cs, i)

/-- Method `Fill::fill` for `Pipeline<MissingHereDoc>` (parser/fill.rs):
the commands are filled and the negation flag is kept. -/
def Pipeline.fill (p : Pipeline MissingHereDoc) (i : List HereDoc) :
    Option (Pipeline HereDoc × List HereDoc) :=
  match fill_commands p.commands i with
  | none => none
  | some (commands, i) => some (⟨commands, p.negation⟩, i)

/-- Count of `MissingHereDoc` placeholders in a redirection body. -/
def RedirBody.countMissing : RedirBody MissingHereDoc → Nat
  | .hereDoc _ => 1

/-- Count of `MissingHereDoc` placeholders in a redirection. -/
def Redir.countMissing (r : Redir MissingHereDoc) : Nat :=
  r.body.countMissing

/-- Count of `MissingHereDoc` placeholders in a redirection list. -/
def countMissing_redirs (rs : List (Redir MissingHereDoc)) : Nat :=
  (rs.map Redir.countMissing).sum

/-- Count of `MissingHereDoc` placeholders in a simple command. -/
def SimpleCommand.countMissing (c : SimpleCommand MissingHereDoc) : Nat :=
  countMissing_redirs c.redirs

/-- Count of `MissingHereDoc` placeholders in a command. -/
def Command.countMissing : Command MissingHereDoc → Nat
  | .simpleCommand c => c.countMissing

/-- Count of `MissingHereDoc` placeholders in a command list. -/
def countMissing_commands (cs : List (Command MissingHereDoc)) : Nat :=
  (cs.map Command.countMissing).sum

/-- Count of `MissingHereDoc` placeholders in a pipeline. -/
def Pipeline.countMissing (p : Pipeline MissingHereDoc) : Nat :=
  countMissing_commands p.commands

/-- Here-document bodies of a filled redirection body, in tree order. -/
def RedirBody.heredocs : RedirBody HereDoc → List HereDoc
  | .hereDoc h => [h]

/-- Here-document bodies of a filled redirection, in tree order. -/
def Redir.heredocs (r : Redir HereDoc) : List HereDoc :=
  r.body.heredocs

/-- Here-document bodies of a filled redirection list, in tree order. -/
def heredocs_redirs (rs : List (Redir HereDoc)) : List HereDoc :=
  rs.flatMap Redir.heredocs

/-- Here-document bodies of a filled simple command, in tree order. -/
def SimpleCommand.heredocs (c : SimpleCommand HereDoc) : List HereDoc :=
  heredocs_redirs c.redirs

/-- Here-document bodies of a filled command, in tree order. -/
def Command.heredocs : Command HereDoc → List HereDoc
  | .simpleCommand c => c.heredocs

/-- Here-document bodies of a filled command list, in tree order. -/
def heredocs_commands (cs : List (Command HereDoc)) : List HereDoc :=
  cs.flatMap Command.heredocs

/-- Here-document bodies of a filled pipeline, in tree order. -/
def Pipeline.heredocs (p : Pipeline HereDoc) : List HereDoc :=
  heredocs_commands p.commands

/-- Skeleton of a redirection body with the here-document representation
erased: what `fill` must leave unchanged. -/
def RedirBody.skeleton {H : Type} : RedirBody H → RedirBody Unit
  | .hereDoc _ => .hereDoc ()

/-- Skeleton of a redirection with the here-document representation
erased. -/
def Redir.skeleton {H : Type} (r : Redir H) : Redir Unit :=
  ⟨r.fd, r.body.skeleton⟩

/-- Skeleton of a simple command with the here-document representation
erased. -/
def SimpleCommand.skeleton {H : Type} (c : SimpleCommand H) :
    SimpleCommand Unit :=
  ⟨c.words, c.redirs.map Redir.skeleton⟩

/-- Skeleton of a command with the here-document representation erased. -/
def Command.skeleton {H : Type} : Command H → Command Unit
  | .simpleCommand c => .simpleCommand c.skeleton

/-- Skeleton of a pipeline with the here-document representation erased. -/
def Pipeline.skeleton {H : Type} (p : Pipeline H) : Pipeline Unit :=
  ⟨p.commands.map Command.skeleton, p.negation⟩

mutual

/-- Source (source.rs): origin of source code.  The reference-counted
sharing of the Rust values is immaterial to `is_alias_for`; the spec's
invariant that the chain of original locations is finite makes the
inductive representation faithful. -/
inductive Source where
  | unknown : Source
  | stdin : Source
  | alias (original : Location) (aliasDef : AliasDef) : Source
  | commandSubst (original : Location) : Source
  | arith (original : Location) : Source
  | trap (condition : String) (origin : Location) : Source

/-- Code (source.rs): content value, start line number, and source. -/
inductive Code where
  | mk (value : String) (start_line_number : Nat) (source : Source) : Code

/-- Location (source.rs): a code fragment and a character range. -/
inductive Location where
  | mk (code : Code) (lo : Nat) (hi : Nat) : Location

/-- Alias (alias.rs): name, replacement, global flag, and origin. -/
inductive AliasDef where
  | mk (name : String) (replacement : String) (global : Bool)
      (origin : Location) : AliasDef

end

/-- Name of an alias definition. -/
def AliasDef.name : AliasDef → String
  | .mk n _ _ _ => n

/-- Code of a location. -/
def Location.code : Location → Code
  | .mk c _ _ => c

/-- Source of a code fragment. -/
def Code.source : Code → Source
  | .mk _ _ s => s

/-- Method `Source::is_alias_for` (source.rs): true when the source is an
alias substitution whose alias has the given name, or whose original
location's code recursively comes from such an alias. -/
def Source.is_alias_for : Source → String → Bool
  | .alias (.mk (.mk _ _ source) _ _) (.mk aliasName _ _ _), name =>
    aliasName == name || source.is_alias_for name
  | _, _ => false

/-- AliasFor: the spec-side characterisation of the re-entrance check. A
source is an alias substitution for a name exactly when somewhere along the
chain of `Source::Alias` originals an alias definition with that name
occurs. -/
inductive AliasFor : Source → String → Prop where
  | here (original : Location) (ad : AliasDef) (name : String) :
      ad.name = name → AliasFor (.alias original ad) name
  | deeper (original : Location) (ad : AliasDef) (name : String) :
      AliasFor original.code.source name → AliasFor (.alias original ad) name

/-- Modelled from the spec: the byte-at-a-time read loop of
`Stdin::next_line` (yash-env/src/input.rs).  The underlying
`SharedSystem::read_async` on the standard-input descriptor is modelled by
an error-free byte stream: each step yields the next byte of `input` or
reports end of input when the stream is exhausted.  The result is the pair
of the accumulated line and the remaining stream.  The UTF-8 decoding and
the optional echo to standard error performed afterwards do not alter
which bytes form the line. -/
def next_line_bytes : List UInt8 → List UInt8 × List UInt8
  | [] => ([], [])
  | b :: rest =>
    if b = 10 then ([b], rest)
    else
      match next_line_bytes rest with
      | (line, remaining) => (b :: line, remaining)

/-- Predicate on lexer results: did the run end in the modelled
`unreachable!()` panic? -/
def hits_unreachable {α : Type} : Except Error α → Bool
  | .error e => e.cause = .unreachable
  | .ok _ => false

/-- Concrete two-level alias chain for the C8 witness: `bar` was
substituted inside the expansion of `foo`. -/
def alias_chain_example : Source :=
  .alias
    (.mk
      (.mk ""
        1
        (.alias (.mk (.mk "" 1 .unknown) 0 0)
          (.mk "foo" "" false (.mk (.mk "" 1 .unknown) 0 0))))
      0 0)
    (.mk "bar" "" false (.mk (.mk "" 1 .unknown) 0 0))

/-- Concrete here-document for the C4 witness. -/
def heredoc_example1 : HereDoc :=
  ⟨⟨[.unquoted (.literal 'E')], 0⟩, false, ⟨[.unquoted (.literal 'h')], 0⟩⟩

/-- Second concrete here-document for the C4 witness. -/
def heredoc_example2 : HereDoc :=
  ⟨⟨[.unquoted (.literal 'F')], 0⟩, true, ⟨[.unquoted (.literal 'k')], 0⟩⟩

/-- Concrete partial pipeline with two here-document placeholders for the
C4 witness. -/
def pipeline_example : Pipeline MissingHereDoc :=
  ⟨[.simpleCommand ⟨[⟨[.unquoted (.literal 'c')], 0⟩],
    [⟨some 0, .hereDoc .mk⟩, ⟨none, .hereDoc .mk⟩]⟩], false⟩

theorem line_continuations_aux_stable (n : Nat) (s : List Char) (pos : Nat)
    (h : s[pos]? ≠ some '\\') : line_continuations_aux n s pos = pos := by
  cases n with
  | zero => rfl
  | succ n => simp [line_continuations_aux, h]

theorem line_continuations_eof (s : List Char) (pos : Nat)
    (h : s[pos]? = none) : line_continuations s pos = pos := by
  unfold line_continuations
  apply line_continuations_aux_stable
  rw [h]
  simp

/-- C1 counterexample: the claim predicts that inside double quotes a
backslash before a double quote (and likewise before a backslash) within
backquotes yields literal units; on the spec's own scenario input
`"`\"\\`"` the code instead produces the two `Backslashed` units. -/
theorem c1_counterexample :
    word_unit 20 is_token_delimiter_char
        ['"', '`', '\\', '"', '\\', '\\', '`', '"'] 0 =
      .ok (some (.doubleQuote
        [.backquote [.backslashed '"', .backslashed '\\'] 1]), 8) ∧
    [BackquoteUnit.backslashed '"', BackquoteUnit.backslashed '\\'] ≠
      [BackquoteUnit.literal '\\', BackquoteUnit.literal '"',
       BackquoteUnit.literal '\\', BackquoteUnit.literal '\\'] :=
  ⟨rfl, by decide⟩

/-- C1 (amended): inside backquotes a backslash followed by `$`, backquote
or backslash is parsed as `BackquoteUnit::Backslashed`; a backslash
followed by a double quote is an escape if and only if
`double_quote_escapable` holds; and the flag `text_unit` passes for a
backquote in a double-quoted context - the negation of
`is_escapable('_')`, with `double_quote_is_escapable` rejecting `_` - is
true, so an enclosing double-quote context enables the double-quote escape
and `\"` inside backquotes inside double quotes yields one `Backslashed`
unit. -/
theorem c1_backquote_escapes (dq : Bool) (s : List Char) (pos : Nat)
    (c : Char)
    (hb : peek_char s (line_continuations s pos) = some '\\')
    (hc : peek_char s (line_continuations s pos + 1) = some c) :
    ((c = '$' ∨ c = '`' ∨ c = '\\') →
      backquote_unit dq s pos =
        (some (.backslashed c), line_continuations s pos + 2)) ∧
    (c = '"' →
      backquote_unit dq s pos =
        if dq then (some (.backslashed '"'), line_continuations s pos + 2)
        else (some (.literal '\\'), line_continuations s pos + 1)) ∧
    (!double_quote_is_escapable '_') = true := by
  refine ⟨?_, ?_, by decide⟩
  · rintro (rfl | rfl | rfl) <;>
      simp [backquote_unit, skip_if, consume_char_if, peek_char] at hb hc ⊢ <;>
      simp [hb, hc]
  · rintro rfl
    simp [backquote_unit, skip_if, consume_char_if, peek_char] at hb hc ⊢
    simp [hb, hc]
    cases dq <;> simp

/-- C1 witness: the amended escape rules at concrete inputs - `\$` is
`Backslashed('$')` in any context, and `\"` is `Backslashed('"')` exactly
in the double-quote context (flag true) and a literal backslash otherwise. -/
theorem c1_backquote_escapes_witness :
    backquote_unit true ['\\', '$'] 0 = (some (.backslashed '$'), 2) ∧
    backquote_unit true ['\\', '"'] 0 = (some (.backslashed '"'), 2) ∧
    backquote_unit false ['\\', '"'] 0 = (some (.literal '\\'), 1) := by
  refine ⟨?_, ?_, ?_⟩
  · exact (c1_backquote_escapes true ['\\', '$'] 0 '$' rfl rfl).1 (Or.inl rfl)
  · exact (c1_backquote_escapes true ['\\', '"'] 0 '"' rfl rfl).2.1 rfl
  · exact (c1_backquote_escapes false ['\\', '"'] 0 '"' rfl rfl).2.1 rfl

/-- C9: when `text_unit` meets an unquoted backslash (after the line
continuation skip) whose following character is not escapable - or which
is the last character of the input - it returns the single literal unit
`Literal('\\')` and leaves the following character unconsumed, to be
parsed on its own by the next call. -/
theorem c9_literal_backslash (fuel : Nat)
    (is_delimiter is_escapable : Char → Bool) (s : List Char) (pos : Nat)
    (hb : peek_char s (line_continuations s pos) = some '\\') :
    (∀ c, peek_char s (line_continuations s pos + 1) = some c →
      is_escapable c = false →
      text_unit (fuel + 1) is_delimiter is_escapable s pos =
        .ok (some (.literal '\\'), line_continuations s pos + 1)) ∧
    (peek_char s (line_continuations s pos + 1) = none →
      text_unit (fuel + 1) is_delimiter is_escapable s pos =
        .ok (some (.literal '\\'), line_continuations s pos + 1)) := by
  rw [peek_char] at hb
  constructor
  · intro c hc hesc
    rw [peek_char] at hc
    simp [text_unit, skip_if, consume_char_if, hb, hc, hesc]
  · intro hc
    rw [peek_char] at hc
    simp [text_unit, skip_if, consume_char_if, hb, hc]

/-- C9 witness: the theorem at `\#` with nothing escapable, and at a
backslash that ends the input. -/
theorem c9_literal_backslash_witness :
    text_unit 1 (fun _ => false) (fun _ => false) ['\\', '#'] 0 =
      .ok (some (.literal '\\'), 1) ∧
    text_unit 1 (fun _ => false) (fun _ => false) ['\\'] 0 =
      .ok (some (.literal '\\'), 1) := by
  constructor
  · exact (c9_literal_backslash 0 (fun _ => false) (fun _ => false)
      ['\\', '#'] 0 rfl).1 '#' rfl rfl
  · exact (c9_literal_backslash 0 (fun _ => false) (fun _ => false)
      ['\\'] 0 rfl).2 rfl

/-- C7: a successful `Stdin::next_line` result is either the empty line,
which can occur only at end of input, or a non-empty line that ends with a
newline byte unless the byte stream is exhausted - a returned non-empty
line lacks the final newline only at end of the input stream. -/
theorem c7_next_line (input : List UInt8) :
    ((next_line_bytes input).1 = [] → input = []) ∧
    ((next_line_bytes input).1 ≠ [] →
      ((next_line_bytes input).1.getLast? = some 10 ∨
        (next_line_bytes input).2 = [])) := by
  induction input with
  | nil => exact ⟨fun _ => rfl, fun h => absurd rfl h⟩
  | cons b rest ih =>
    by_cases hb : b = 10
    · subst hb
      refine ⟨?_, ?_⟩
      · intro h
        simp [next_line_bytes] at h
      · intro _
        left
        simp [next_line_bytes]
    · refine ⟨?_, ?_⟩
      · intro h
        rcases hcase : next_line_bytes rest with ⟨line, remaining⟩
        simp [next_line_bytes, hb, hcase] at h
      · intro _
        rcases hcase : next_line_bytes rest with ⟨line, remaining⟩
        have hline : (next_line_bytes (b :: rest)).1 = b :: line := by
          simp [next_line_bytes, hb, hcase]
        have hrem : (next_line_bytes (b :: rest)).2 = remaining := by
          simp [next_line_bytes, hb, hcase]
        rw [hline, hrem]
        cases line with
        | nil =>
          right
          have h0 : rest = [] := ih.1 (by rw [hcase])
          subst h0
          simp [next_line_bytes] at hcase
          simp [hcase]
        | cons x xs =>
          have h2 := ih.2 (by rw [hcase]; simp)
          rw [hcase] at h2
          simp only [List.getLast?_cons_cons]
          rcases h2 with h2 | h2
          · left
            simpa using h2
          · right
            exact h2

/-- C7 witness: the theorem at a stream with a newline mid-stream (the
returned line ends in the newline byte) and at a stream that ends without
one (the line lacks the newline exactly because the stream is
exhausted). -/
theorem c7_next_line_witness :
    ((next_line_bytes [104, 10, 105]).1.getLast? = some 10 ∨
      (next_line_bytes [104, 10, 105]).2 = []) ∧
    ((next_line_bytes [104, 105]).1.getLast? = some 10 ∨
      (next_line_bytes [104, 105]).2 = []) ∧
    ([] : List UInt8) = [] := by
  refine ⟨(c7_next_line [104, 10, 105]).2 (by decide),
    (c7_next_line [104, 105]).2 (by decide),
    (c7_next_line []).1 (by decide)⟩

theorem to_string_if_literal_length (units : List WordUnit)
    (lit : List Char) (h : to_string_if_literal units = some lit) :
    lit.length = units.length := by
  induction units generalizing lit with
  | nil =>
    simp [to_string_if_literal] at h
    simp [← h]
  | cons u rest ih =>
    cases u with
    | unquoted tu =>
      cases tu with
      | literal c =>
        simp only [to_string_if_literal] at h
        cases hrest : to_string_if_literal rest with
        | none => rw [hrest] at h; simp at h
        | some cs =>
          rw [hrest] at h
          simp at h
          subst h
          simp [ih cs hrest]
      | backslashed c => simp [to_string_if_literal] at h
      | commandSubst content location => simp [to_string_if_literal] at h
      | arith content location => simp [to_string_if_literal] at h
      | backquote content location => simp [to_string_if_literal] at h
    | singleQuote content => simp [to_string_if_literal] at h
    | doubleQuote content => simp [to_string_if_literal] at h
    | tilde name => simp [to_string_if_literal] at h

theorem keyword_of_all_digits (lit : List Char)
    (hd : lit.all (fun c => c.isDigit) = true) (hne : lit ≠ []) :
    keyword_of lit = none := by
  rw [keyword_of, if_neg]
  intro hmem
  simp [keywords] at hmem
  rcases hmem with h | h | h | h | h | h | h | h | h | h | h | h | h | h | h | h <;>
    subst h <;> simp_all

/-- C5: `token_id` classifies a word as `IoNumber` exactly when the word
is non-empty, entirely literal, spelled with ASCII digits only, and the
immediately following unconsumed character - with no blank in between,
since the peeked character is the very next one - is `<` or `>`; an
all-digit word not so followed is an ordinary `Token(None)`. -/
theorem c5_io_number (s : List Char) (pos : Nat) (w : Word) :
    (token_id s pos w = .ioNumber ↔
      (w.units ≠ [] ∧ ∃ lit, to_string_if_literal w.units = some lit ∧
        lit.all (fun c => c.isDigit) = true ∧
        (peek_char s pos = some '<' ∨ peek_char s pos = some '>'))) ∧
    ((w.units ≠ [] ∧ ∃ lit, to_string_if_literal w.units = some lit ∧
        lit.all (fun c => c.isDigit) = true) →
      ¬(peek_char s pos = some '<' ∨ peek_char s pos = some '>') →
      token_id s pos w = .token none) := by
  constructor
  · constructor
    · intro h
      by_cases hempty : w.units.isEmpty
      · simp [token_id, hempty] at h
      · cases hlit : to_string_if_literal w.units with
        | none => simp [token_id, hempty, hlit] at h
        | some lit =>
          cases hkw : keyword_of lit with
          | some kw => simp [token_id, hempty, hlit, hkw] at h
          | none =>
            by_cases hdig : lit.all (fun c => c.isDigit) = true
            · cases hnext : peek_char s pos with
              | none => simp [token_id, hempty, hlit, hkw, hdig, hnext] at h
              | some next =>
                by_cases hlt : next = '<' ∨ next = '>'
                · refine ⟨by simpa using hempty, lit, rfl, hdig, ?_⟩
                  rcases hlt with rfl | rfl
                  · exact Or.inl rfl
                  · exact Or.inr rfl
                · simp [token_id, hempty, hlit, hkw, hdig, hnext, hlt] at h
            · simp [token_id, hempty, hlit, hkw, hdig] at h
    · rintro ⟨hne, lit, hlit, hdig, hnext⟩
      have hlen := to_string_if_literal_length w.units lit hlit
      have hlitne : lit ≠ [] := by
        intro h0
        apply hne
        subst h0
        simpa using hlen.symm
      rcases hnext with hnext | hnext <;>
        simp [token_id, hne, hlit, keyword_of_all_digits lit hdig hlitne,
          hdig, hnext]
  · rintro ⟨hne, lit, hlit, hdig⟩ hnext
    have hlen := to_string_if_literal_length w.units lit hlit
    have hlitne : lit ≠ [] := by
      intro h0
      apply hne
      subst h0
      simpa using hlen.symm
    cases hpk : peek_char s pos with
    | none =>
      simp [token_id, hne, hlit, keyword_of_all_digits lit hdig hlitne,
        hdig, hpk]
    | some next =>
      have h1 : next ≠ '<' := fun h => hnext (Or.inl (h ▸ hpk))
      have h2 : next ≠ '>' := fun h => hnext (Or.inr (h ▸ hpk))
      simp [token_id, hne, hlit, keyword_of_all_digits lit hdig hlitne,
        hdig, hpk, h1, h2]

/-- C5 witness: the digit word `12` is an `IoNumber` before `<` and an
ordinary token before a blank. -/
theorem c5_io_number_witness :
    token_id ['1', '2', '<'] 2
        ⟨[.unquoted (.literal '1'), .unquoted (.literal '2')], 0⟩ =
      .ioNumber ∧
    token_id ['1', '2', ' ', '<'] 2
        ⟨[.unquoted (.literal '1'), .unquoted (.literal '2')], 0⟩ =
      .token none := by
  constructor
  · exact (c5_io_number ['1', '2', '<'] 2
      ⟨[.unquoted (.literal '1'), .unquoted (.literal '2')], 0⟩).1.mpr
      ⟨by simp, ['1', '2'], rfl, by decide, Or.inl rfl⟩
  · exact (c5_io_number ['1', '2', ' ', '<'] 2
      ⟨[.unquoted (.literal '1'), .unquoted (.literal '2')], 0⟩).2
      ⟨by simp, ['1', '2'], rfl, by decide⟩ (by decide)


/-- C8: `Source::is_alias_for` returns true exactly when the source is an
alias substitution for the name somewhere along the chain of original
locations (the `AliasFor` characterisation: the alias record at this level
has the name, or recursively the source of the code containing the
original location is an alias for it), and returns false for every source
that is not an `Alias` variant.  This is the check the alias layer uses to
block re-substitution of an alias already being expanded. -/
theorem c8_is_alias_for (s : Source) (n : String) :
    (s.is_alias_for n = true ↔ AliasFor s n) ∧
    ((∀ original ad, s ≠ .alias original ad) → s.is_alias_for n = false) := by
  induction s, n using Source.is_alias_for.induct with
  | case1 v ln src lo hi aliasName rep gl orig name ih =>
    refine ⟨⟨?_, ?_⟩, ?_⟩
    · intro h
      simp [Source.is_alias_for] at h
      rcases h with h | h
      · exact AliasFor.here _ _ _ (by simpa [AliasDef.name] using h)
      · exact AliasFor.deeper _ _ _ (ih.1.mp h)
    · intro h
      cases h with
      | here a b c hname =>
        simp [AliasDef.name] at hname
        simp [Source.is_alias_for, hname]
      | deeper a b c hrec =>
        have hsrc : src.is_alias_for name = true := ih.1.mpr hrec
        simp [Source.is_alias_for, hsrc]
    · intro hne
      exact absurd rfl (hne _ _)
  | case2 t name hshape =>
    have hfalse : t.is_alias_for name = false := by
      rcases t with _ | _ | ⟨⟨⟨v, ln, src⟩, lo, hi⟩, ⟨an, rep, gl, orig⟩⟩ |
        original | original | ⟨cond, origin⟩
      · rfl
      · rfl
      · exact absurd rfl (hshape v ln src lo hi an rep gl orig)
      · rfl
      · rfl
      · rfl
    refine ⟨⟨fun h => ?_, fun h => ?_⟩, fun _ => hfalse⟩
    · rw [hfalse] at h
      exact absurd h (by simp)
    · exfalso
      cases h with
      | here original ad hname =>
        rcases original with ⟨⟨v, ln, src⟩, lo, hi⟩
        rcases ad with ⟨an, rep, gl, orig⟩
        exact hshape v ln src lo hi an rep gl orig rfl
      | deeper original ad hrec =>
        rcases original with ⟨⟨v, ln, src⟩, lo, hi⟩
        rcases ad with ⟨an, rep, gl, orig⟩
        exact hshape v ln src lo hi an rep gl orig rfl

/-- C8 witness: along the example chain both `bar` (at the top level) and
`foo` (one level deeper) are detected, and a non-alias source is never an
alias for anything. -/
theorem c8_is_alias_for_witness :
    alias_chain_example.is_alias_for "bar" = true ∧
    alias_chain_example.is_alias_for "foo" = true ∧
    Source.stdin.is_alias_for "foo" = false := by
  refine ⟨?_, ?_, ?_⟩
  · exact (c8_is_alias_for alias_chain_example "bar").1.mpr
      (AliasFor.here _ _ _ rfl)
  · exact (c8_is_alias_for alias_chain_example "foo").1.mpr
      (AliasFor.deeper _ _ _ (AliasFor.here _ _ _ rfl))
  · exact (c8_is_alias_for .stdin "foo").2 (fun original ad h => by cases h)

/-- C2: evidence for the line-continuation gap in `Lexer::word_unit`. On
`a'b'` the token is the word `a` followed by the single-quoted `b`; after
inserting a backslash-newline pair at index 1 - outside single quotes,
directly before the opening quote - the quote no longer opens a
single-quoted unit: `word_unit` tests for a quote before skipping line
continuations (the TODO in the source), so `text_unit` consumes the pair
and parses the quote character as a literal, and the final quote then
opens an unterminated single-quote, turning the token into an
`UnclosedSingleQuote` error instead of an identical token sequence. -/
theorem c2_line_continuation_not_invisible :
    (token 20 ['a', '\'', 'b', '\''] 0).map
        (fun r => (r.1.word.units, r.1.id, r.2)) =
      .ok ([.unquoted (.literal 'a'), .singleQuote ['b']], .token none, 4) ∧
    token 20 ['a', '\\', '\n', '\'', 'b', '\''] 0 =
      .error ⟨.unclosedSingleQuote 5, 6⟩ :=
  ⟨rfl, rfl⟩

theorem consume_char_if_none (p : Char → Bool) (s : List Char) (pos pos2 : Nat)
    (h : consume_char_if p s pos = (none, pos2)) :
    pos2 = pos ∧ (s[pos]? = none ∨ ∃ c, s[pos]? = some c ∧ p c = false) := by
  cases hget : s[pos]? with
  | none =>
    simp [consume_char_if, hget] at h
    exact ⟨by omega, Or.inl rfl⟩
  | some c =>
    by_cases hp : p c = true
    · simp [consume_char_if, hget, hp] at h
    · simp [consume_char_if, hget, hp] at h
      exact ⟨by omega, Or.inr ⟨c, rfl, by simpa using hp⟩⟩

theorem consume_char_if_some (p : Char → Bool) (s : List Char) (pos pos2 : Nat)
    (sc : SourceChar) (h : consume_char_if p s pos = (some sc, pos2)) :
    pos2 = pos + 1 ∧ sc.location = pos ∧ s[pos]? = some sc.value ∧
      p sc.value = true := by
  cases hget : s[pos]? with
  | none => simp [consume_char_if, hget] at h
  | some c =>
    by_cases hp : p c = true
    · simp [consume_char_if, hget, hp] at h
      obtain ⟨h1, h2⟩ := h
      subst h1
      exact ⟨by omega, rfl, by simp [hget], by simp [hp]⟩
    · simp [consume_char_if, hget, hp] at h

theorem skip_if_false (p : Char → Bool) (s : List Char) (pos pos2 : Nat)
    (h : skip_if p s pos = (false, pos2)) :
    pos2 = pos ∧ (s[pos]? = none ∨ ∃ c, s[pos]? = some c ∧ p c = false) := by
  rcases hc : consume_char_if p s pos with ⟨o, q⟩
  cases o with
  | none =>
    simp [skip_if, hc] at h
    subst h
    exact consume_char_if_none p s pos q hc
  | some sc => simp [skip_if, hc] at h

theorem skip_if_true (p : Char → Bool) (s : List Char) (pos pos2 : Nat)
    (h : skip_if p s pos = (true, pos2)) :
    pos2 = pos + 1 ∧ ∃ c, s[pos]? = some c ∧ p c = true := by
  rcases hc : consume_char_if p s pos with ⟨o, q⟩
  cases o with
  | none => simp [skip_if, hc] at h
  | some sc =>
    simp [skip_if, hc] at h
    subst h
    obtain ⟨h1, _, h3, h4⟩ := consume_char_if_some p s pos q sc hc
    exact ⟨h1, sc.value, h3, h4⟩

theorem arithmetic_expansion_inr (fuel loc : Nat) (s : List Char)
    (pos loc2 pos2 : Nat)
    (h : arithmetic_expansion fuel loc s pos = .ok (.inr loc2, pos2)) :
    loc2 = loc ∧ pos2 = pos := by
  cases fuel with
  | zero => simp [arithmetic_expansion] at h
  | succ fuel =>
    rw [arithmetic_expansion] at h
    split at h
    · rename_i pos1 heq
      simp at h
      obtain ⟨h1, h2⟩ := h
      exact ⟨h1.symm, by rw [← h2]; exact (skip_if_false _ _ _ _ heq).1⟩
    · rename_i pos1 heq
      dsimp only at h
      split at h
      · simp at h
        exact ⟨h.1.symm, h.2.symm⟩
      · split at h
        · simp at h
        · rename_i content pos4 heq4
          split at h
          · rename_i c heqc
            split at h
            · split at h
              · rename_i c2 heqc2
                split at h
                · simp at h
                · simp at h
                  exact ⟨h.1.symm, h.2.symm⟩
              · simp at h
            · simp at h
          · simp at h

/-- C3: after consuming `$`, `dollar_unit` attempts the arithmetic
expansion first and attempts the command substitution only when the
arithmetic attempt reports the unmatched marker; whenever
`arithmetic_expansion` returns the unmatched marker its index is restored
exactly to its value before the attempt (so the command substitution
retries from the first `(`); and when neither form matches, `dollar_unit`
consumes no characters at all and returns none. -/
theorem c3_speculative_parsing (fuel loc : Nat) (s : List Char) (pos : Nat) :
    (∀ loc2 pos2,
      arithmetic_expansion fuel loc s pos = .ok (.inr loc2, pos2) →
      loc2 = loc ∧ pos2 = pos) ∧
    (∀ pos2, dollar_unit fuel s pos = .ok (none, pos2) → pos2 = pos) ∧
    (∀ u pos2, peek_char s pos = some '$' →
      arithmetic_expansion fuel pos s (pos + 1) = .ok (.inl u, pos2) →
      dollar_unit (fuel + 1) s pos = .ok (some u, pos2)) ∧
    (∀ loc2 pos2, peek_char s pos = some '$' →
      arithmetic_expansion fuel pos s (pos + 1) = .ok (.inr loc2, pos2) →
      pos2 = pos + 1 ∧
      dollar_unit (fuel + 1) s pos =
        (match command_substitution fuel loc2 s (pos + 1) with
         | .error e => .error e
         | .ok (some u, p) => .ok (some u, p)
         | .ok (none, _) => .ok (none, pos))) := by
  refine ⟨fun loc2 pos2 h => arithmetic_expansion_inr fuel loc s pos loc2 pos2 h,
    ?_, ?_, ?_⟩
  · intro pos2 h
    cases fuel with
    | zero => simp [dollar_unit] at h
    | succ fuel =>
      rw [dollar_unit] at h
      split at h
      · simp at h
        omega
      · rename_i sc pos1 heq
        dsimp only at h
        split at h
        · simp at h
        · simp at h
        · split at h
          · simp at h
          · simp at h
          · simp at h
            omega
  · intro u pos2 hpeek harith
    rw [peek_char] at hpeek
    have hc : consume_char_if (fun c => c = '$') s pos =
        (some ⟨'$', pos⟩, pos + 1) := by
      simp [consume_char_if, hpeek]
    rw [dollar_unit, hc]
    dsimp only
    rw [harith]
  · intro loc2 pos2 hpeek harith
    obtain ⟨hl, hp⟩ :=
      arithmetic_expansion_inr fuel pos s (pos + 1) loc2 pos2 harith
    refine ⟨hp, ?_⟩
    rw [peek_char] at hpeek
    have hc : consume_char_if (fun c => c = '$') s pos =
        (some ⟨'$', pos⟩, pos + 1) := by
      simp [consume_char_if, hpeek]
    rw [dollar_unit, hc]
    dsimp only
    rw [harith, hp]

/-- C3 witness: on `$((1))` the arithmetic attempt succeeds and decides
the dollar unit; on `((1) ` the unmatched marker restores the index to the
start; on `$((1) ` the unmatched arithmetic attempt hands over to the
command substitution at the first `(`. -/
theorem c3_speculative_parsing_witness :
    dollar_unit 20 "$((1))".toList 0 =
      .ok (some (.arith [.literal '1'] 0), 6) ∧
    (0 : Nat) = 0 ∧
    (1 : Nat) = 0 + 1 := by
  refine ⟨?_, ?_, ?_⟩
  · exact (c3_speculative_parsing 19 0 "$((1))".toList 0).2.2.1
      (.arith [.literal '1'] 0) 6 rfl rfl
  · exact ((c3_speculative_parsing 19 0 "((1) ".toList 0).1 0 0 rfl).2
  · exact ((c3_speculative_parsing 19 0 "$((1) ".toList 0).2.2.2 0 1 rfl rfl).1

/-- C6: while at least one parenthesis is unclosed (the stack of opening
locations is non-empty), the caller-supplied delimiter predicate is
ignored by the per-character test of `text_with_parentheses` - the test
agrees for any two delimiter predicates and accepts exactly `(` and `)` -
and an input exhausted with a non-empty stack yields an `UnclosedParen`
error whose opening location is the top of the stack: the most recently
opened unclosed `(`. -/
theorem c6_unclosed_paren (f f2 g : Char → Bool) (stack : List Nat)
    (c : Char) (s : List Char) (pos : Nat) (units : List TextUnit)
    (loc : Nat) (rest : List Nat) (fuel : Nat) :
    (stack ≠ [] →
      is_delimiter_or_paren f stack c = is_delimiter_or_paren f2 stack c ∧
      is_delimiter_or_paren f stack c =
        (decide (c = '(') || decide (c = ')'))) ∧
    (peek_char s pos = none →
      text_with_parentheses_loop (fuel + 4) f g s pos units (loc :: rest) =
        .error ⟨.unclosedParen loc, pos⟩) := by
  constructor
  · intro hne
    have hst : stack.isEmpty = false := by simpa using hne
    by_cases hc : c = '('
    · simp [is_delimiter_or_paren, hc]
    · simp [is_delimiter_or_paren, hc, hst]
  · intro hpeek
    rw [peek_char] at hpeek
    have hlc : line_continuations s pos = pos := line_continuations_eof s pos hpeek
    have hcc : ∀ p : Char → Bool, consume_char_if p s pos = (none, pos) := by
      intro p
      simp [consume_char_if, hpeek]
    have hsk : ∀ p : Char → Bool, skip_if p s pos = (false, pos) := by
      intro p
      simp [skip_if, hcc]
    have hdu : dollar_unit (fuel + 1) s pos = .ok (none, pos) := by
      simp [dollar_unit, hcc]
    have hbq : ∀ dq, backquote (fuel + 1) dq s pos = .ok (none, pos) := by
      intro dq
      simp [backquote, hcc]
    have htu : text_unit (fuel + 1 + 1) (is_delimiter_or_paren f (loc :: rest))
        g s pos = .ok (none, pos) := by
      simp [text_unit, hlc, hsk, hdu, hbq, hcc]
    have htl : text_loop (fuel + 1 + 1 + 1)
        (is_delimiter_or_paren f (loc :: rest)) g s pos [] = .ok ([], pos) := by
      simp [text_loop, htu]
    show text_with_parentheses_loop (fuel + 1 + 1 + 1 + 1) f g s pos units
        (loc :: rest) = .error ⟨.unclosedParen loc, pos⟩
    rw [text_with_parentheses_loop, htl]
    dsimp only
    rw [hcc]
    simp [hsk]

/-- C6 witness: with one `(` open the per-character test ignores the
delimiter predicates (which disagree everywhere) and accepts exactly the
parentheses, and the empty input with the stack `[1]` reports
`UnclosedParen` at opening location 1. -/
theorem c6_unclosed_paren_witness :
    (is_delimiter_or_paren (fun _ => true) [1] 'x' =
        is_delimiter_or_paren (fun _ => false) [1] 'x' ∧
      is_delimiter_or_paren (fun _ => true) [1] 'x' =
        (decide ('x' = '(') || decide ('x' = ')'))) ∧
    text_with_parentheses_loop 4 (fun _ => true) (fun _ => false)
        ['('] 1 [.literal '('] [1] = .error ⟨.unclosedParen 1, 1⟩ := by
  constructor
  · exact (c6_unclosed_paren (fun _ => true) (fun _ => false) (fun _ => false)
      [1] 'x' [] 0 [] 0 [] 0).1 (by simp)
  · exact (c6_unclosed_paren (fun _ => true) (fun _ => true) (fun _ => false)
      [1] 'x' ['('] 1 [.literal '('] 1 [] 0).2 rfl

theorem redirBody_fill_spec (rb : RedirBody MissingHereDoc)
    (i : List HereDoc) (h : rb.countMissing ≤ i.length) :
    ∃ q : RedirBody HereDoc,
      rb.fill i = some (q, i.drop rb.countMissing) ∧
      q.heredocs = i.take rb.countMissing ∧ q.skeleton = rb.skeleton := by
  cases rb with
  | hereDoc m =>
    cases i with
    | nil => simp [RedirBody.countMissing] at h
    | cons hd rest => exact ⟨.hereDoc hd, rfl, rfl, rfl⟩

theorem redir_fill_spec (r : Redir MissingHereDoc) (i : List HereDoc)
    (h : r.countMissing ≤ i.length) :
    ∃ q : Redir HereDoc,
      r.fill i = some (q, i.drop r.countMissing) ∧
      q.heredocs = i.take r.countMissing ∧ q.skeleton = r.skeleton := by
  obtain ⟨qb, hfill, hh, hs⟩ := redirBody_fill_spec r.body i h
  refine ⟨⟨r.fd, qb⟩, ?_, ?_, ?_⟩
  · simp [Redir.fill, Redir.countMissing, hfill]
  · simpa [Redir.heredocs, Redir.countMissing] using hh
  · simp [Redir.skeleton, hs]

theorem fill_redirs_spec (rs : List (Redir MissingHereDoc))
    (i : List HereDoc) (h : countMissing_redirs rs ≤ i.length) :
    ∃ qs : List (Redir HereDoc),
      fill_redirs rs i = some (qs, i.drop (countMissing_redirs rs)) ∧
      heredocs_redirs qs = i.take (countMissing_redirs rs) ∧
      qs.map Redir.skeleton = rs.map Redir.skeleton := by
  induction rs generalizing i with
  | nil => exact ⟨[], rfl, rfl, rfl⟩
  | cons r rs ih =>
    rw [countMissing_redirs] at h
    simp only [List.map_cons, List.sum_cons] at h
    have h1 : r.countMissing ≤ i.length := by omega
    obtain ⟨q, hq, hqh, hqs⟩ := redir_fill_spec r i h1
    have h2 : countMissing_redirs rs ≤ (i.drop r.countMissing).length := by
      rw [countMissing_redirs]
      simp
      omega
    obtain ⟨qs2, hfill2, hh2, hs2⟩ := ih (i.drop r.countMissing) h2
    have hcount : countMissing_redirs (r :: rs) =
        r.countMissing + countMissing_redirs rs := by
      simp [countMissing_redirs]
    refine ⟨q :: qs2, ?_, ?_, ?_⟩
    · have hdd : List.drop (countMissing_redirs rs)
          (List.drop r.countMissing i) =
          List.drop (countMissing_redirs (r :: rs)) i := by
        rw [List.drop_drop, hcount, Nat.add_comm]
      rw [fill_redirs, hq]
      dsimp only
      rw [hfill2, hdd]
    · rw [heredocs_redirs] at hh2 ⊢
      simp only [List.flatMap_cons]
      rw [hqh, hh2, hcount, ← List.take_add]
    · simp [hqs, hs2]

theorem simpleCommand_fill_spec (c : SimpleCommand MissingHereDoc)
    (i : List HereDoc) (h : c.countMissing ≤ i.length) :
    ∃ q : SimpleCommand HereDoc,
      c.fill i = some (q, i.drop c.countMissing) ∧
      q.heredocs = i.take c.countMissing ∧ q.skeleton = c.skeleton := by
  obtain ⟨qs, hfill, hh, hs⟩ := fill_redirs_spec c.redirs i h
  refine ⟨⟨c.words, qs⟩, ?_, ?_, ?_⟩
  · simp [SimpleCommand.fill, SimpleCommand.countMissing, hfill]
  · simpa [SimpleCommand.heredocs, SimpleCommand.countMissing] using hh
  · simp [SimpleCommand.skeleton, hs]

theorem command_fill_spec (c : Command MissingHereDoc) (i : List HereDoc)
    (h : c.countMissing ≤ i.length) :
    ∃ q : Command HereDoc,
      c.fill i = some (q, i.drop c.countMissing) ∧
      q.heredocs = i.take c.countMissing ∧ q.skeleton = c.skeleton := by
  cases c with
  | simpleCommand sc =>
    obtain ⟨q, hfill, hh, hs⟩ := simpleCommand_fill_spec sc i h
    refine ⟨.simpleCommand q, ?_, ?_, ?_⟩
    · simp [Command.fill, Command.countMissing, hfill]
    · simpa [Command.heredocs, Command.countMissing] using hh
    · simp [Command.skeleton, hs]

theorem fill_commands_spec (cs : List (Command MissingHereDoc))
    (i : List HereDoc) (h : countMissing_commands cs ≤ i.length) :
    ∃ qs : List (Command HereDoc),
      fill_commands cs i = some (qs, i.drop (countMissing_commands cs)) ∧
      heredocs_commands qs = i.take (countMissing_commands cs) ∧
      qs.map Command.skeleton = cs.map Command.skeleton := by
  induction cs generalizing i with
  | nil => exact ⟨[], rfl, rfl, rfl⟩
  | cons c cs ih =>
    rw [countMissing_commands] at h
    simp only [List.map_cons, List.sum_cons] at h
    have h1 : c.countMissing ≤ i.length := by omega
    obtain ⟨q, hq, hqh, hqs⟩ := command_fill_spec c i h1
    have h2 : countMissing_commands cs ≤ (i.drop c.countMissing).length := by
      rw [countMissing_commands]
      simp
      omega
    obtain ⟨qs2, hfill2, hh2, hs2⟩ := ih (i.drop c.countMissing) h2
    have hcount : countMissing_commands (c :: cs) =
        c.countMissing + countMissing_commands cs := by
      simp [countMissing_commands]
    refine ⟨q :: qs2, ?_, ?_, ?_⟩
    · have hdd : List.drop (countMissing_commands cs)
          (List.drop c.countMissing i) =
          List.drop (countMissing_commands (c :: cs)) i := by
        rw [List.drop_drop, hcount, Nat.add_comm]
      rw [fill_commands, hq]
      dsimp only
      rw [hfill2, hdd]
    · rw [heredocs_commands] at hh2 ⊢
      simp only [List.flatMap_cons]
      rw [hqh, hh2, hcount, ← List.take_add]
    · simp [hqs, hs2]

/-- C4: for every partial AST node - `RedirBody`, `Redir`,
`SimpleCommand`, `Command`, or `Pipeline` over `MissingHereDoc` - and
every iterator (modelled as the list of values it will yield) supplying at
least as many here-documents as the node has placeholders, `fill`
succeeds, consumes exactly one value per placeholder in tree order (the
filled node's here-documents are the consumed prefix, and the rest of the
iterator is returned untouched), and leaves every other component
unchanged (the skeleton - file descriptors, words, negation flag, and the
number and order of commands and redirections - is preserved).  The
filled tree contains no placeholders by construction: its here-document
type is `HereDoc`, not `MissingHereDoc`. -/
theorem c4_fill (rb : RedirBody MissingHereDoc) (r : Redir MissingHereDoc)
    (sc : SimpleCommand MissingHereDoc) (cmd : Command MissingHereDoc)
    (p : Pipeline MissingHereDoc) (i : List HereDoc) :
    (rb.countMissing ≤ i.length → ∃ q : RedirBody HereDoc,
      rb.fill i = some (q, i.drop rb.countMissing) ∧
      q.heredocs = i.take rb.countMissing ∧ q.skeleton = rb.skeleton) ∧
    (r.countMissing ≤ i.length → ∃ q : Redir HereDoc,
      r.fill i = some (q, i.drop r.countMissing) ∧
      q.heredocs = i.take r.countMissing ∧ q.skeleton = r.skeleton) ∧
    (sc.countMissing ≤ i.length → ∃ q : SimpleCommand HereDoc,
      sc.fill i = some (q, i.drop sc.countMissing) ∧
      q.heredocs = i.take sc.countMissing ∧ q.skeleton = sc.skeleton) ∧
    (cmd.countMissing ≤ i.length → ∃ q : Command HereDoc,
      cmd.fill i = some (q, i.drop cmd.countMissing) ∧
      q.heredocs = i.take cmd.countMissing ∧ q.skeleton = cmd.skeleton) ∧
    (p.countMissing ≤ i.length → ∃ q : Pipeline HereDoc,
      p.fill i = some (q, i.drop p.countMissing) ∧
      q.heredocs = i.take p.countMissing ∧ q.skeleton = p.skeleton) := by
  refine ⟨redirBody_fill_spec rb i, redir_fill_spec r i,
    simpleCommand_fill_spec sc i, command_fill_spec cmd i, ?_⟩
  intro h
  obtain ⟨qs, hfill, hh, hs⟩ := fill_commands_spec p.commands i h
  refine ⟨⟨qs, p.negation⟩, ?_, ?_, ?_⟩
  · simp [Pipeline.fill, Pipeline.countMissing, hfill]
  · simpa [Pipeline.heredocs, Pipeline.countMissing] using hh
  · simp [Pipeline.skeleton, hs]

/-- C4 witness: filling the two-placeholder example pipeline from a
two-element iterator consumes it whole, embeds the bodies in order, and
preserves the skeleton. -/
theorem c4_fill_witness :
    ∃ q : Pipeline HereDoc,
      pipeline_example.fill [heredoc_example1, heredoc_example2] =
        some (q, []) ∧
      q.heredocs = [heredoc_example1, heredoc_example2] ∧
      q.skeleton = pipeline_example.skeleton := by
  have h := (c4_fill (.hereDoc .mk) ⟨none, .hereDoc .mk⟩ ⟨[], []⟩
    (.simpleCommand ⟨[], []⟩) pipeline_example
    [heredoc_example1, heredoc_example2]).2.2.2.2 (by decide)
  simpa using h

theorem backquote_loop_error (fuel : Nat) (dq : Bool) (s : List Char)
    (pos : Nat) (acc : List BackquoteUnit) (err : Error)
    (h : backquote_loop fuel dq s pos acc = .error err) :
    err.cause = .outOfFuel := by
  induction fuel generalizing pos acc with
  | zero =>
    simp [backquote_loop] at h
    simp [← h]
  | succ fuel ih =>
    rw [backquote_loop] at h
    split at h
    · exact ih _ _ h
    · simp at h

theorem backquote_error (fuel : Nat) (dq : Bool) (s : List Char)
    (pos : Nat) (err : Error) (h : backquote fuel dq s pos = .error err) :
    err.cause ≠ .unreachable := by
  rw [backquote] at h
  split at h
  · simp at h
  · rename_i sc pos1 heq
    dsimp only at h
    split at h
    · rename_i e2 heq2
      simp at h
      rw [← h]
      rw [backquote_loop_error fuel dq s pos1 [] e2 heq2]
      simp
    · split at h
      · simp at h
      · simp at h
        rw [← h]
        simp

theorem dollar_unit_none_pos (fuel : Nat) (s : List Char) (pos pos2 : Nat)
    (h : dollar_unit fuel s pos = .ok (none, pos2)) : pos2 = pos := by
  cases fuel with
  | zero => simp [dollar_unit] at h
  | succ fuel =>
    rw [dollar_unit] at h
    split at h
    · simp at h
      omega
    · dsimp only at h
      split at h
      · simp at h
      · simp at h
      · split at h
        · simp at h
        · simp at h
        · simp at h
          omega

theorem backquote_none_pos (fuel : Nat) (dq : Bool) (s : List Char)
    (pos pos2 : Nat) (h : backquote fuel dq s pos = .ok (none, pos2)) :
    pos2 = pos := by
  rw [backquote] at h
  split at h
  · simp at h
    omega
  · dsimp only at h
    split at h
    · simp at h
    · split at h
      · simp at h
      · simp at h

theorem lex_no_unreachable (fuel : Nat) :
    (∀ (d e : Char → Bool) (s : List Char) (pos : Nat) (err : Error),
      text_unit fuel d e s pos = .error err → err.cause ≠ .unreachable) ∧
    (∀ (d e : Char → Bool) (s : List Char) (pos pos2 : Nat),
      text_unit fuel d e s pos = .ok (none, pos2) →
      s[pos2]? = none ∨ ∃ c, s[pos2]? = some c ∧ d c = true) ∧
    (∀ (d e : Char → Bool) (s : List Char) (pos : Nat)
      (acc : List TextUnit) (err : Error),
      text_loop fuel d e s pos acc = .error err → err.cause ≠ .unreachable) ∧
    (∀ (d e : Char → Bool) (s : List Char) (pos : Nat)
      (acc t : List TextUnit) (pos2 : Nat),
      text_loop fuel d e s pos acc = .ok (t, pos2) →
      s[pos2]? = none ∨ ∃ c, s[pos2]? = some c ∧ d c = true) ∧
    (∀ (d e : Char → Bool) (s : List Char) (pos : Nat)
      (units : List TextUnit) (stack : List Nat) (err : Error),
      text_with_parentheses_loop fuel d e s pos units stack = .error err →
      err.cause ≠ .unreachable) ∧
    (∀ (d e : Char → Bool) (s : List Char) (pos : Nat)
      (units : List TextUnit) (stack : List Nat) (t : List TextUnit)
      (pos2 : Nat),
      text_with_parentheses_loop fuel d e s pos units stack = .ok (t, pos2) →
      s[pos2]? = none ∨ ∃ c, s[pos2]? = some c ∧ d c = true) ∧
    (∀ (s : List Char) (pos : Nat) (err : Error),
      dollar_unit fuel s pos = .error err → err.cause ≠ .unreachable) ∧
    (∀ (loc : Nat) (s : List Char) (pos : Nat) (err : Error),
      arithmetic_expansion fuel loc s pos = .error err →
      err.cause ≠ .unreachable) ∧
    (∀ (loc : Nat) (s : List Char) (pos : Nat) (err : Error),
      command_substitution fuel loc s pos = .error err →
      err.cause ≠ .unreachable) := by
  induction fuel with
  | zero =>
    refine ⟨?_, ?_, ?_, ?_, ?_, ?_, ?_, ?_, ?_⟩
    · intro d e s pos err h
      simp [text_unit] at h
      simp [← h]
    · intro d e s pos pos2 h
      simp [text_unit] at h
    · intro d e s pos acc err h
      simp [text_loop] at h
      simp [← h]
    · intro d e s pos acc t pos2 h
      simp [text_loop] at h
    · intro d e s pos units stack err h
      simp [text_with_parentheses_loop] at h
      simp [← h]
    · intro d e s pos units stack t pos2 h
      simp [text_with_parentheses_loop] at h
    · intro s pos err h
      simp [dollar_unit] at h
      simp [← h]
    · intro loc s pos err h
      simp [arithmetic_expansion] at h
      simp [← h]
    · intro loc s pos err h
      simp [command_substitution] at h
      simp [← h]
  | succ fuel ih =>
    obtain ⟨ih_tu_err, ih_tu_none, ih_tl_err, ih_tl_ok, ih_twp_err,
      ih_twp_ok, ih_du, ih_ar, ih_cs⟩ := ih
    refine ⟨?_, ?_, ?_, ?_, ?_, ?_, ?_, ?_, ?_⟩
    · -- text_unit propagates no unreachable error
      intro d e s pos err h
      rw [text_unit] at h
      try dsimp only at h
      split at h
      · split at h
        · simp at h
        · simp at h
      · split at h
        · rename_i e2 heq2
          simp at h
          rw [← h]
          exact ih_du _ _ _ heq2
        · simp at h
        · rename_i p2 heq2
          split at h
          · rename_i e3 heq3
            simp at h
            rw [← h]
            exact backquote_error _ _ _ _ _ heq3
          · simp at h
          · split at h
            · simp at h
            · simp at h
    · -- text_unit that returns none stops at end of input or a delimiter
      intro d e s pos pos2 h
      rw [text_unit] at h
      try dsimp only at h
      split at h
      · split at h
        · simp at h
        · simp at h
      · split at h
        · simp at h
        · simp at h
        · rename_i p2 heq2
          split at h
          · simp at h
          · simp at h
          · rename_i p3 heq3
            split at h
            · simp at h
            · rename_i p4 heq4
              simp at h
              obtain ⟨hp4, hdisj⟩ := consume_char_if_none _ _ _ _ heq4
              rw [← h, hp4]
              rcases hdisj with hnone | ⟨c, hc, hdc⟩
              · exact Or.inl hnone
              · refine Or.inr ⟨c, hc, ?_⟩
                simpa using hdc
    · -- text_loop propagates no unreachable error
      intro d e s pos acc err h
      rw [text_loop] at h
      split at h
      · rename_i e2 heq2
        simp at h
        rw [← h]
        exact ih_tu_err _ _ _ _ _ heq2
      · simp at h
      · exact ih_tl_err _ _ _ _ _ _ h
    · -- text_loop stops at end of input or a delimiter
      intro d e s pos acc t pos2 h
      rw [text_loop] at h
      split at h
      · simp at h
      · rename_i p1 heq1
        simp at h
        rw [← h.2]
        exact ih_tu_none _ _ _ _ _ heq1
      · exact ih_tl_ok _ _ _ _ _ _ _ h
    · -- text_with_parentheses_loop propagates no unreachable error
      intro d e s pos units stack err h
      rw [text_with_parentheses_loop] at h
      split at h
      · rename_i e2 heq2
        simp at h
        rw [← h]
        exact ih_tl_err _ _ _ _ _ _ heq2
      · rename_i nu p1 heq1
        try dsimp only at h
        split at h
        · exact ih_twp_err _ _ _ _ _ _ _ h
        · rename_i p2 heq2
          split at h
          · split at h
            · exact ih_twp_err _ _ _ _ _ _ _ h
            · simp at h
              rw [← h]
              simp
          · simp at h
    · -- text_with_parentheses_loop stops at end of input or a delimiter
      intro d e s pos units stack t pos2 h
      rw [text_with_parentheses_loop] at h
      split at h
      · simp at h
      · rename_i nu p1 heq1
        try dsimp only at h
        split at h
        · exact ih_twp_ok _ _ _ _ _ _ _ _ h
        · rename_i p2 heq2
          obtain ⟨hp2, hdisj⟩ := consume_char_if_none _ _ _ _ heq2
          split at h
          · split at h
            · exact ih_twp_ok _ _ _ _ _ _ _ _ h
            · simp at h
          · simp at h
            rw [← h.2, hp2]
            have hpost := ih_tl_ok _ _ _ _ _ _ _ heq1
            rcases hpost with hnone | ⟨c, hc, hdc⟩
            · exact Or.inl hnone
            · refine Or.inr ⟨c, hc, ?_⟩
              rw [is_delimiter_or_paren] at hdc
              rcases hdisj with hnone2 | ⟨c2, hc2, hpc2⟩
              · rw [hc] at hnone2
                simp at hnone2
              · rw [hc] at hc2
                simp at hc2
                subst hc2
                have hcne : ¬(c = '(') := by simpa using hpc2
                rw [if_neg hcne] at hdc
                simpa using hdc
    · -- dollar_unit propagates no unreachable error
      intro s pos err h
      rw [dollar_unit] at h
      split at h
      · simp at h
      · try dsimp only at h
        split at h
        · rename_i e2 heq2
          simp at h
          rw [← h]
          exact ih_ar _ _ _ _ heq2
        · simp at h
        · split at h
          · rename_i e3 heq3
            simp at h
            rw [← h]
            exact ih_cs _ _ _ _ heq3
          · simp at h
          · simp at h
    · -- arithmetic_expansion never reaches the unreachable arm
      intro loc s pos err h
      rw [arithmetic_expansion] at h
      try dsimp only at h
      split at h
      · simp at h
      · split at h
        · simp at h
        · split at h
          · rename_i e2 heq2
            simp at h
            rw [← h]
            exact ih_twp_err _ _ _ _ _ _ _ heq2
          · rename_i content p3 heq3
            split at h
            · rename_i c heqc
              split at h
              · try dsimp only at h
                split at h
                · rename_i c2 heqc2
                  split at h
                  · simp at h
                  · simp at h
                · simp at h
                  rw [← h]
                  simp
              · rename_i hcne
                exfalso
                have hpost := ih_twp_ok _ _ _ _ _ _ _ _ heq3
                rw [peek_char] at heqc
                rcases hpost with hnone | ⟨c3, hc3, hdc3⟩
                · rw [heqc] at hnone
                  simp at hnone
                · rw [heqc] at hc3
                  simp at hc3
                  subst hc3
                  simp at hdc3
                  exact hcne hdc3
            · simp at h
              rw [← h]
              simp
    · -- command_substitution propagates no unreachable error
      intro loc s pos err h
      rw [command_substitution] at h
      split at h
      · simp at h
      · try dsimp only at h
        split at h
        · simp at h
        · simp at h
          rw [← h]
          simp

/-- C10: the `Some(_) => unreachable!()` arm in
`Lexer::arithmetic_expansion` can never execute: after
`text_with_parentheses` returns with `)` as the delimiter, the next peeked
character is always `)` or end of input, so for every fuel, location,
input, and position, the run of `arithmetic_expansion` never produces the
modelled unreachable panic. -/
theorem c10_no_unreachable (fuel loc : Nat) (s : List Char) (pos : Nat) :
    hits_unreachable (arithmetic_expansion fuel loc s pos) = false := by
  cases hres : arithmetic_expansion fuel loc s pos with
  | error e =>
    have hne := (lex_no_unreachable fuel).2.2.2.2.2.2.2.1 loc s pos e hres
    simpa [hits_unreachable] using hne
  | ok v => simp [hits_unreachable]
